import Mathlib

/-!
Verification of the almanac scraper core (`src/build_almanac.py`).

The Python source is shallowly embedded: strings become `List Char`,
pure helpers become Lean functions, the fetch loop becomes a function from
an abstract response stream to an explicit trace of its side effects, and
the range driver becomes a fold over the date list it iterates.  Regular
expressions are embedded by the scan-and-backtrack semantics of Python's
`re.search` / `re.split` / `re.sub` specialised to the concrete patterns
appearing in the source.
-/

namespace Almanac

/-- Whitespace characters recognised by Python's `\s` / `str.strip` on the
text that occurs in these pages (ASCII whitespace plus NBSP and the
ideographic space). -/
def isSpaceChar (c : Char) : Bool :=
  c = ' ' || c = '\t' || c = '\n' || c = '\r' || c = '\x0b' || c = '\x0c' ||
  c = ' ' || c = '　'

/-- Delimiter class of `re.split(r"[\s、]+", ...)` in `_split_items`. -/
def isItemDelim (c : Char) : Bool :=
  isSpaceChar c || c = '、'

/-- Python `str.strip()`: drop whitespace from both ends. -/
def strip (l : List Char) : List Char :=
  ((l.dropWhile isSpaceChar).reverse.dropWhile isSpaceChar).reverse

/-- `re.split(r"[\s、]+", raw)`: fragments between maximal delimiter runs,
including an empty fragment at either end when the string starts or ends
with a delimiter. -/
def reSplitDelim : List Char → List (List Char)
  | [] => [[]]
  | c :: rest =>
    let r := reSplitDelim rest
    if isItemDelim c then
      match rest with
      | d :: _ => if isItemDelim d then r else [] :: r
      | [] => [] :: r
    else
      match r with
      | f :: fs => (c :: f) :: fs
      | [] => [[c]]

/-- `_split_items`: `None`/empty input gives `[]`; otherwise split on runs
of whitespace or `、`, strip each fragment, keep the non-empty ones. -/
def splitItems : Option (List Char) → List (List Char)
  | none => []
  | some [] => []
  | some raw => ((reSplitDelim raw).map strip).filter (fun p => p ≠ [])

/-- `" ".join(parts)`. -/
def joinSpace : List (List Char) → List Char
  | [] => []
  | [t] => t
  | t :: ts => t ++ ' ' :: joinSpace ts

/- ### Label-value lookup (`_find_line_value`) -/

/-- Leading punctuation stripped in rule 4 of `_find_line_value`
(`lstrip(" ：:")`). -/
def isColonSpacePunct (c : Char) : Bool :=
  c = ' ' || c = '：' || c = ':'

/-- Python `s.lstrip(" ：:")`. -/
def lstripColonSpace (l : List Char) : List Char :=
  l.dropWhile isColonSpacePunct

/-- Python `pat in line` (substring containment). -/
def containsSub (pat : List Char) : List Char → Bool
  | [] => List.isPrefixOf pat []
  | c :: t => List.isPrefixOf pat (c :: t) || containsSub pat t

/-- Python `line.split(pat, 1)[1]`: the text after the first occurrence of
`pat` (``[]`` when `pat` does not occur). -/
def afterFirstSub (pat : List Char) : List Char → List Char
  | [] => []
  | c :: t =>
    if List.isPrefixOf pat (c :: t) then (c :: t).drop pat.length
    else afterFirstSub pat t

/-- The checks of the `_find_line_value` loop body on one line, in source
order; `next?` is the following line when one exists. -/
def checkLine (label line : List Char) (next? : Option (List Char)) :
    Option (List Char) :=
  let labelColon := label ++ ['：']
  let labelAscii := label ++ [':']
  if line = label ∧ next?.isSome then next?.map strip
  else if List.isPrefixOf labelColon line then
    some (strip (line.drop labelColon.length))
  else if List.isPrefixOf labelAscii line then
    some (strip (line.drop labelAscii.length))
  else if List.isPrefixOf label line ∧ lstripColonSpace (line.drop label.length) ≠ [] then
    some (lstripColonSpace (line.drop label.length))
  else if containsSub labelColon line then
    some (strip (afterFirstSub labelColon line))
  else if containsSub labelAscii line then
    some (strip (afterFirstSub labelAscii line))
  else none

/-- `_find_line_value`: scan the lines in order, applying the six matching
rules to each; first hit wins, `none` when no rule matches any line. -/
def findLineValue (label : List Char) : List (List Char) → Option (List Char)
  | [] => none
  | line :: rest =>
    match checkLine label line rest.head? with
    | some v => some v
    | none => findLineValue label rest

/- ### Specification form of the lookup (from the claim's wording):
rule `r` applied at line index `i`, matches searched in lexicographic
`(i, r)` order. -/

/-- The six matching rules of the specification, indexed 0–5, evaluated at
line `i` of the sequence.  Rule 0: a line equal to the label yields the
(whitespace-stripped) next line.  Rules 1/2: the label followed by a
full-width / ASCII colon at the start of the line yields the stripped
remainder.  Rule 3: the bare label at the start yields the remainder after
stripping leading colon/space punctuation, only if non-empty.  Rules 4/5:
the label followed by a full-width / ASCII colon anywhere inside the line
yields the stripped text after that substring. -/
def ruleValue (label : List Char) (lines : List (List Char)) (i r : Nat) :
    Option (List Char) :=
  match lines[i]? with
  | none => none
  | some line =>
    match r with
    | 0 => if line = label then lines[i + 1]?.map strip else none
    | 1 => if List.isPrefixOf (label ++ ['：']) line then
             some (strip (line.drop (label ++ ['：']).length)) else none
    | 2 => if List.isPrefixOf (label ++ [':']) line then
             some (strip (line.drop (label ++ [':']).length)) else none
    | 3 => if List.isPrefixOf label line ∧ lstripColonSpace (line.drop label.length) ≠ [] then
             some (lstripColonSpace (line.drop label.length)) else none
    | 4 => if containsSub (label ++ ['：']) line then
             some (strip (afterFirstSub (label ++ ['：']) line)) else none
    | 5 => if containsSub (label ++ [':']) line then
             some (strip (afterFirstSub (label ++ [':']) line)) else none
    | _ => none

/-- Label-value lookup as the specification states it: the first match in
the scan over lines, each line tried against the six rules in precedence
order. -/
def specLookup (label : List Char) (lines : List (List Char)) :
    Option (List Char) :=
  (List.range lines.length).findSome? (fun i =>
    (List.range 6).findSome? (fun r => ruleValue label lines i r))

/- ### Clash field (`_extract_chong`) -/

/-- Character class `[^\(煞]` of the animal pattern. -/
def notChongStop (c : Char) : Bool :=
  c ≠ '(' && c ≠ '煞'

/-- `re.search(r"冲([^\(煞]+)", raw)` followed by `.strip()`: scan for a
`冲` that is immediately followed by a non-empty run of characters other
than `(` and `煞`; on failure the scan resumes at the next position. -/
def chongAnimal : List Char → Option (List Char)
  | [] => none
  | c :: rest =>
    if c = '冲' ∧ rest.takeWhile notChongStop ≠ [] then
      some (strip (rest.takeWhile notChongStop))
    else chongAnimal rest

/-- `re.search(r"\(([^\)]+)\)", raw)` followed by `.strip()`: scan for a
`(` followed by a non-empty run of non-`)` characters that is closed by an
actual `)`. -/
def chongBranch : List Char → Option (List Char)
  | [] => none
  | c :: rest =>
    if c = '(' ∧ rest.takeWhile (fun d => d ≠ ')') ≠ [] ∧
        rest.drop (rest.takeWhile (fun d => d ≠ ')')).length ≠ [] then
      some (strip (rest.takeWhile (fun d => d ≠ ')')))
    else chongBranch rest

/-- The clash sub-record returned by `_extract_chong`. -/
structure ChongInfo where
  text : Option (List Char)
  animal : Option (List Char)
  branch : Option (List Char)
deriving DecidableEq

/-- `_extract_chong`: all-`None` on falsy input, otherwise the raw text
plus the two independently optional sub-parts. -/
def extractChong : Option (List Char) → ChongInfo
  | none => ⟨none, none, none⟩
  | some [] => ⟨none, none, none⟩
  | some (c :: raw) => ⟨some (c :: raw), chongAnimal (c :: raw), chongBranch (c :: raw)⟩

/-- The claim's literal animal rule: the run of characters between the
first `冲` and the next `(` or `煞` (or the end), absent when empty. -/
def claimChongAnimal (raw : List Char) : Option (List Char) :=
  if containsSub ['冲'] raw then
    if (afterFirstSub ['冲'] raw).takeWhile notChongStop = [] then none
    else some ((afterFirstSub ['冲'] raw).takeWhile notChongStop)
  else none

/-- The claim's literal branch rule: the text inside the first parenthesis
pair, i.e. what stands between the first `(` and the next `)`. -/
def claimChongBranch (raw : List Char) : Option (List Char) :=
  if containsSub ['('] raw ∧ containsSub [')'] (afterFirstSub ['('] raw) then
    some ((afterFirstSub ['('] raw).takeWhile (fun d => d ≠ ')'))
  else none

/-- Amended animal rule at position `i`: a `冲` at `i` followed by a
non-empty run of characters other than `(` and `煞` yields that run,
whitespace-stripped. -/
def animalAt (raw : List Char) (i : Nat) : Option (List Char) :=
  if raw[i]? = some '冲' ∧ (raw.drop (i + 1)).takeWhile notChongStop ≠ [] then
    some (strip ((raw.drop (i + 1)).takeWhile notChongStop))
  else none

/-- Amended animal rule: the first position whose `冲` carries a non-empty
run; positions where `冲` is directly followed by `(`, `煞` or the end are
skipped. -/
def amendedChongAnimal (raw : List Char) : Option (List Char) :=
  (List.range raw.length).findSome? (animalAt raw)

/-- Amended branch rule at position `i`: a `(` at `i` followed by a
non-empty run of non-`)` characters closed by `)` yields that run,
whitespace-stripped. -/
def branchAt (raw : List Char) (i : Nat) : Option (List Char) :=
  if raw[i]? = some '(' ∧ (raw.drop (i + 1)).takeWhile (fun d => d ≠ ')') ≠ [] ∧
      (raw.drop (i + 1)).drop ((raw.drop (i + 1)).takeWhile (fun d => d ≠ ')')).length ≠ [] then
    some (strip ((raw.drop (i + 1)).takeWhile (fun d => d ≠ ')')))
  else none

/-- Amended branch rule: the first parenthesis pair enclosing non-empty
text; `()` pairs and unclosed `(` are skipped. -/
def amendedChongBranch (raw : List Char) : Option (List Char) :=
  (List.range raw.length).findSome? (branchAt raw)

/- ### Patron deity (`zhishen` / `huangdao`) -/

/-- The auspicious-path marker `黄道`. -/
def hdMarker : List Char := ['黄', '道']

/-- Scan to the first `)`, returning the text after it; a newline blocks
the non-greedy `.*?` of the pattern. -/
def findClose : List Char → Option (List Char)
  | [] => none
  | c :: r => if c = ')' then some r else if c = '\n' then none else findClose r

/-- Fuel-indexed worker for `re.sub(r"\(.*?\)", "", s)`: delete each
leftmost-shortest parenthesized group.  Each recursive step consumes at
least one character, so fuel equal to the length always suffices. -/
def removeParensGo : Nat → List Char → List Char
  | 0, l => l
  | _ + 1, [] => []
  | fuel + 1, c :: rest =>
    if c = '(' then
      match findClose rest with
      | some rest2 => removeParensGo fuel rest2
      | none => c :: removeParensGo fuel rest
    else c :: removeParensGo fuel rest

/-- `re.sub(r"\(.*?\)", "", s)`. -/
def removeParens (l : List Char) : List Char :=
  removeParensGo l.length l

/-- The patron-deity pair `(name, auspicious-day flag)` computed inline in
`parse_almanac_html`: on falsy raw input both degrade; otherwise the flag
tests the unstripped raw text for `黄道` and the name removes every
parenthesized group and strips whitespace. -/
def zhishenOf : Option (List Char) → Option (List Char) × Bool
  | none => (none, false)
  | some [] => (none, false)
  | some (c :: raw) =>
    (some (strip (removeParens (c :: raw))), containsSub hdMarker (c :: raw))

/-- The claim's literal name rule: strip only a *trailing* parenthesized
group, leaving any other text unchanged. -/
def stripTrailingParen (raw : List Char) : List Char :=
  match raw.reverse with
  | ')' :: rtail =>
    if containsSub ['('] rtail then (afterFirstSub ['('] rtail).reverse else raw
  | _ => raw

/- ### Lunar mansion (`_extract_xingxiu`) -/

/-- `re.search(r"([^\(]+)\(([^\)]+)\)", raw)`: scan for a non-empty run of
non-`(` characters followed by `(`, a non-empty run of non-`)` characters,
and `)`; the scan resumes at the next position on failure. -/
def xingxiuSearch : List Char → Option (List Char × List Char)
  | [] => none
  | c :: t =>
    if c ≠ '(' then
      match (c :: t).drop ((c :: t).takeWhile (fun d => d ≠ '(')).length with
      | '(' :: rest2 =>
        if rest2.takeWhile (fun d => d ≠ ')') ≠ [] ∧
            rest2.drop (rest2.takeWhile (fun d => d ≠ ')')).length ≠ [] then
          some ((c :: t).takeWhile (fun d => d ≠ '('),
            rest2.takeWhile (fun d => d ≠ ')'))
        else xingxiuSearch t
      | _ => xingxiuSearch t
    else xingxiuSearch t

/-- `_extract_xingxiu`: `(name, jixiong)` both `None` on falsy input; a
`name(qualifier)` match splits into the two stripped parts; otherwise the
whole stripped raw text is the name and the qualifier is `None`. -/
def extractXingxiu : Option (List Char) → Option (List Char) × Option (List Char)
  | none => (none, none)
  | some [] => (none, none)
  | some (c :: raw) =>
    match xingxiuSearch (c :: raw) with
    | some (n, q) => (some (strip n), some (strip q))
    | none => (some (strip (c :: raw)), none)

/- ### Year/month/day-prefixed searches (`_extract_kongwang`, `_extract_sansha`) -/

/-- The character class `[:： ]` of the prefixed-label patterns. -/
def isColonSpaceClass (c : Char) : Bool :=
  c = ':' || c = '：' || c = ' '

/-- The greedy `[^\s]+` capture: the maximal non-whitespace run. -/
def nonWSRun (l : List Char) : List Char :=
  l.takeWhile (fun c => ¬ isSpaceChar c)

/-- Greedy `[:： ]*` with backtracking: try consuming `k` class characters
for `k` from the maximal run length down to `0`, succeeding at the first
`k` whose following character is non-whitespace. -/
def backtrackColon : Nat → List Char → Option (List Char)
  | 0, rest => if nonWSRun rest ≠ [] then some (nonWSRun rest) else none
  | k + 1, rest =>
    if nonWSRun (rest.drop (k + 1)) ≠ [] then some (nonWSRun (rest.drop (k + 1)))
    else backtrackColon k rest

/-- Matching `[:： ]*([^\s]+)` at the start of `rest`. -/
def tailColonMatch (rest : List Char) : Option (List Char) :=
  backtrackColon (rest.takeWhile isColonSpaceClass).length rest

/-- `re.search(rf"{label}[:： ]*([^\s]+)", text)`: scan every position for
the literal label followed by the colon-class run and a non-empty
non-whitespace capture. -/
def reSearchColonCapture (label : List Char) : List Char → Option (List Char)
  | [] => none
  | c :: t =>
    if List.isPrefixOf label (c :: t) then
      match tailColonMatch ((c :: t).drop label.length) with
      | some v => some v
      | none => reSearchColonCapture label t
    else reSearchColonCapture label t

/-- A year/month/day triple of optional values. -/
structure YMD where
  year : Option (List Char)
  month : Option (List Char)
  day : Option (List Char)
deriving DecidableEq

/-- `_extract_kongwang` over the whole joined text. -/
def extractKongwang (text : List Char) : YMD :=
  ⟨(reSearchColonCapture ("年空亡".toList) text).map strip,
   (reSearchColonCapture ("月空亡".toList) text).map strip,
   (reSearchColonCapture ("日空亡".toList) text).map strip⟩

/-- `_extract_sansha` (also used for `七煞`): the label prefixed with
`年`/`月`/`日`. -/
def extractSansha (text : List Char) (label : List Char) : YMD :=
  ⟨(reSearchColonCapture ('年' :: label) text).map strip,
   (reSearchColonCapture ('月' :: label) text).map strip,
   (reSearchColonCapture ('日' :: label) text).map strip⟩

/- ### Line normalisation (`_normalize_lines`) -/

/-- Line terminators split on (the page text separates blocks with `\n`;
empty fragments are dropped afterwards, so finer splitting is harmless). -/
def isNewlineChar (c : Char) : Bool :=
  c = '\n' || c = '\r'

/-- Split the visible text into raw lines at newline characters. -/
def splitLinesOn : List Char → List (List Char)
  | [] => [[]]
  | c :: rest =>
    let r := splitLinesOn rest
    if isNewlineChar c then [] :: r
    else
      match r with
      | f :: fs => (c :: f) :: fs
      | [] => [[c]]

/-- `re.sub(r"\s+", " ", raw)`: collapse each maximal whitespace run to a
single space. -/
def collapseWS : List Char → List Char
  | [] => []
  | c :: rest =>
    let r := collapseWS rest
    if isSpaceChar c then
      match rest with
      | d :: _ => if isSpaceChar d then r else ' ' :: r
      | [] => ' ' :: r
    else c :: r

/-- `_normalize_lines` on the visible page text (the HTML-to-text step of
BeautifulSoup is an external collaborator; its output text is this
function's input): split into lines, collapse whitespace, strip, and keep
the non-empty lines. -/
def normalizeLines (text : List Char) : List (List Char) :=
  ((splitLinesOn text).map (fun l => strip (collapseWS l))).filter (fun l => l ≠ [])

/-- Python `a or b` on optional strings: `a` unless it is `None` or empty. -/
def pyOr (a b : Option (List Char)) : Option (List Char) :=
  match a with
  | some v => if v = [] then b else some v
  | none => b

/- ### Record assembly (`parse_almanac_html`) -/

/-- A Gregorian calendar date as held by Python's `datetime.date`. -/
structure CalDate where
  year : Nat
  month : Nat
  day : Nat
deriving DecidableEq

/-- Zero-padding to two digits (`%m` / `%d`). -/
def pad2 (n : Nat) : List Char :=
  if n < 10 then '0' :: Nat.toDigits 10 n else Nat.toDigits 10 n

/-- Zero-padding to four digits (`%Y` as CPython renders it on Linux for
the years `datetime.date` admits). -/
def pad4 (n : Nat) : List Char :=
  if n < 10 then '0' :: '0' :: '0' :: Nat.toDigits 10 n
  else if n < 100 then '0' :: '0' :: Nat.toDigits 10 n
  else if n < 1000 then '0' :: Nat.toDigits 10 n
  else Nat.toDigits 10 n

/-- `target_date.strftime("%Y-%m-%d")`. -/
def formatDate (d : CalDate) : List Char :=
  pad4 d.year ++ '-' :: (pad2 d.month ++ '-' :: pad2 d.day)

/-- The record dictionary built by `parse_almanac_html`. -/
structure AlmanacRecord where
  date : List Char
  yi : List (List Char)
  ji : List (List Char)
  zhishen : Option (List Char)
  huangdao : Bool
  shier_shen : Option (List Char)
  xingxiu : Option (List Char)
  xingxiu_jixiong : Option (List Char)
  chong : ChongInfo
  kongwang : YMD
  jishen : List (List Char)
  xiongsha : List (List Char)
  sansha : YMD
  qisha : YMD
  url : List Char
deriving DecidableEq

/-- `parse_almanac_html`: normalise the text into lines, look up each
labelled field, decompose the composite ones, and assemble the record.
Total by construction; every absent field degrades to `[]`/`none`. -/
def parseAlmanacHtml (html : List Char) (targetDate : CalDate) (url : List Char) :
    AlmanacRecord :=
  let lines := normalizeLines html
  let textBlob := joinSpace lines
  let yiRaw := findLineValue ("宜".toList) lines
  let jiRaw := findLineValue ("忌".toList) lines
  let zhishenRaw := findLineValue ("值神".toList) lines
  let shierShen := findLineValue ("十二神".toList) lines
  let xingxiuRaw := findLineValue ("星宿".toList) lines
  let chongRaw := pyOr (findLineValue ("冲煞".toList) lines) (findLineValue ("冲".toList) lines)
  let kongwang := extractKongwang textBlob
  let sansha := extractSansha textBlob ("三煞".toList)
  let qisha := extractSansha textBlob ("七煞".toList)
  let jishenRaw := pyOr (pyOr (findLineValue ("吉神宜趋".toList) lines)
    (findLineValue ("吉神".toList) lines)) (findLineValue ("吉神宜趋：".toList) lines)
  let xiongshaRaw := pyOr (findLineValue ("凶煞宜忌".toList) lines)
    (findLineValue ("凶煞".toList) lines)
  let z := zhishenOf zhishenRaw
  let xing := extractXingxiu xingxiuRaw
  { date := formatDate targetDate
    yi := splitItems yiRaw
    ji := splitItems jiRaw
    zhishen := z.1
    huangdao := z.2
    shier_shen := shierShen
    xingxiu := xing.1
    xingxiu_jixiong := xing.2
    chong := extractChong chongRaw
    kongwang := kongwang
    jishen := splitItems jishenRaw
    xiongsha := splitItems xiongshaRaw
    sansha := sansha
    qisha := qisha
    url := url }

/- ### Page fetcher (`fetch_html`) -/

/-- One attempt's observable outcome: an HTTP response with a status code
and body, or a transport exception with a message. -/
inductive Outcome where
  | ok (status : Nat) (body : List Char)
  | exn (msg : List Char)
deriving DecidableEq

/-- The description carried by the final `FetchError` (`str(last_error)`):
either the unexpected-status text built from the last status code, or the
last exception's message. -/
inductive ErrDesc where
  | statusCode (code : Nat)
  | exnMsg (msg : List Char)
  | noneSeen
deriving DecidableEq

/-- What an attempt's failure records into `last_error`. -/
def describeFailure : Outcome → ErrDesc
  | .ok code _ => .statusCode code
  | .exn m => .exnMsg m

/-- The trace of one `fetch_html` call: how many HTTP attempts were made,
how many 1-second pauses were slept, how many cache writes happened, and
the result (returned body or raised `FetchError`). -/
structure FetchTrace where
  attempts : Nat
  sleeps : Nat
  cacheWrites : Nat
  result : Except ErrDesc (List Char)

/-- The retry loop `for attempt in range(3)` of `fetch_html`, with the
attempt index, remaining iterations, recorded `last_error` and sleep count
made explicit.  A 200 response writes the cache once and returns the body;
any other outcome records the error and, when `attempt < 2`, sleeps one
second before the next attempt; after the loop the last error is raised. -/
def fetchGo (responses : Nat → Outcome) :
    Nat → Nat → Option ErrDesc → Nat → FetchTrace
  | attempt, 0, last, sleeps =>
    ⟨attempt, sleeps, 0, .error (match last with | some e => e | none => .noneSeen)⟩
  | attempt, fuel + 1, _last, sleeps =>
    match responses attempt with
    | .ok code body =>
      if code = 200 then ⟨attempt + 1, sleeps, 1, .ok body⟩
      else
        fetchGo responses (attempt + 1) fuel (some (.statusCode code))
          (if attempt < 2 then sleeps + 1 else sleeps)
    | .exn m =>
      fetchGo responses (attempt + 1) fuel (some (.exnMsg m))
        (if attempt < 2 then sleeps + 1 else sleeps)

/-- `fetch_html`: return the cached body untouched when the cache file
exists; otherwise run the three-attempt retry loop against the abstract
response stream. -/
def fetchHtml (cached : Option (List Char)) (responses : Nat → Outcome) :
    FetchTrace :=
  match cached with
  | some text => ⟨0, 0, 0, .ok text⟩
  | none => fetchGo responses 0 3 none 0

/-- An attempt is a failure when it is an exception or a non-200 status. -/
def isFailureOutcome : Outcome → Prop
  | .ok code _ => code ≠ 200
  | .exn _ => True

instance : ∀ o, Decidable (isFailureOutcome o) := fun o => by
  unfold isFailureOutcome
  match o with
  | .ok _ _ => infer_instance
  | .exn _ => infer_instance

/- ### Dates and the range driver (`_date_range`, `build_almanac`) -/

/-- Gregorian leap year, as `calendar.isleap` / `datetime` use it. -/
def isLeapYear (y : Nat) : Bool :=
  (y % 4 = 0 && y % 100 ≠ 0) || y % 400 = 0

/-- Days in a month of a given year. -/
def daysInMonth (y m : Nat) : Nat :=
  if m = 2 then (if isLeapYear y then 29 else 28)
  else if m = 4 ∨ m = 6 ∨ m = 9 ∨ m = 11 then 30
  else 31

/-- `datetime.date` ordering (lexicographic on year, month, day). -/
def dateLe (a b : CalDate) : Prop :=
  a.year < b.year ∨ (a.year = b.year ∧
    (a.month < b.month ∨ (a.month = b.month ∧ a.day ≤ b.day)))

instance : ∀ a b, Decidable (dateLe a b) := fun a b => by
  unfold dateLe; infer_instance

/-- Strict `datetime.date` ordering. -/
def dateLt (a b : CalDate) : Prop :=
  a.year < b.year ∨ (a.year = b.year ∧
    (a.month < b.month ∨ (a.month = b.month ∧ a.day < b.day)))

instance : ∀ a b, Decidable (dateLt a b) := fun a b => by
  unfold dateLt; infer_instance

/-- The dates `datetime.date` can actually hold. -/
def validDate (d : CalDate) : Prop :=
  1 ≤ d.month ∧ d.month ≤ 12 ∧ 1 ≤ d.day ∧ d.day ≤ daysInMonth d.year d.month

instance : ∀ d, Decidable (validDate d) := fun d => by
  unfold validDate; infer_instance

/-- `current + timedelta(days=1)`. -/
def nextDate (d : CalDate) : CalDate :=
  if d.day < daysInMonth d.year d.month then ⟨d.year, d.month, d.day + 1⟩
  else if d.month < 12 then ⟨d.year, d.month + 1, 1⟩
  else ⟨d.year + 1, 1, 1⟩

/-- A clamped rank that strictly increases along `nextDate` steps; used
only as the termination measure of the date-range loop. -/
def ordClamp (d : CalDate) : Nat :=
  372 * d.year + 31 * min d.month 12 + min d.day 31

/-- `_date_range`: all dates from `cur` to `end_` inclusive, in the order
the `while current <= end` loop yields them. -/
def dateRange (cur end_ : CalDate) : List CalDate :=
  if h : dateLe cur end_ then cur :: dateRange (nextDate cur) end_ else []
termination_by 372 * end_.year + 404 - ordClamp cur
decreasing_by
  have h31 : daysInMonth cur.year cur.month ≤ 31 := by
    unfold daysInMonth; split_ifs <;> omega
  have hmono : ordClamp cur < ordClamp (nextDate cur) := by
    rcases cur with ⟨y, m, day⟩
    unfold nextDate
    dsimp only at h31 ⊢
    split_ifs with h1 h2
    · unfold ordClamp
      dsimp only
      simp only [Nat.min_def]
      split_ifs <;> omega
    · unfold ordClamp
      dsimp only
      simp only [Nat.min_def]
      split_ifs <;> omega
    · unfold ordClamp
      dsimp only
      simp only [Nat.min_def]
      split_ifs <;> omega
  have hyear : cur.year ≤ end_.year := by
    rcases h with h | ⟨h, _⟩ <;> omega
  have hbound : ordClamp cur ≤ 372 * end_.year + 403 := by
    unfold ordClamp
    have hm : min cur.month 12 ≤ 12 := Nat.min_le_right _ _
    have hd : min cur.day 31 ≤ 31 := Nat.min_le_right _ _
    omega
  omega

/-- The source registry: `SOURCES` holds the single key `huangli123`. -/
def sourcesHas (name : List Char) : Bool :=
  name = "huangli123".toList

/-- The per-date loop body of `build_almanac` over an abstract fetch
result (the fetcher either yields page text or raises): each date is
fetched, parsed, and its record appended; the first fetch failure aborts
with that error, keeping the records already written and performing no
further fetches. Returns (records written, fetch calls made, error). -/
def runRange (fetch : CalDate → Except ErrDesc (List Char))
    (urlOf : CalDate → List Char) :
    List CalDate → List AlmanacRecord × Nat × Option ErrDesc
  | [] => ([], 0, none)
  | d :: ds =>
    match fetch d with
    | .error e => ([], 1, some e)
    | .ok html =>
      let rest := runRange fetch urlOf ds
      (parseAlmanacHtml html d (urlOf d) :: rest.1, rest.2.1 + 1, rest.2.2)

/-- How one `build_almanac` run ends. -/
inductive RunOutcome where
  | completed
  | fetchFailed (e : ErrDesc)
  | unsupportedSource
deriving DecidableEq

/-- The observable trace of one `build_almanac` run: the records written
to the output file (one line each, in order), the number of fetch calls,
whether the output file was created/truncated, and the ending. -/
structure RunTrace where
  records : List AlmanacRecord
  fetchCalls : Nat
  fileCreated : Bool
  outcome : RunOutcome

/-- `build_almanac`: an unregistered source raises before any file or
network activity; otherwise the output file is opened (created or
truncated) and the date range is processed in order. -/
def buildAlmanac (sourceName : List Char) (start end_ : CalDate)
    (fetch : CalDate → Except ErrDesc (List Char))
    (urlOf : CalDate → List Char) : RunTrace :=
  if sourcesHas sourceName then
    let res := runRange fetch urlOf (dateRange start end_)
    ⟨res.1, res.2.1, true,
      match res.2.2 with
      | none => .completed
      | some e => .fetchFailed e⟩
  else ⟨[], 0, false, .unsupportedSource⟩

/- ### Lemmas about `reSplitDelim` / `splitItems` -/

theorem reSplitDelim_ne_nil (l : List Char) : reSplitDelim l ≠ [] := by
  induction l with
  | nil => simp [reSplitDelim]
  | cons c rest ih =>
    simp only [reSplitDelim]
    split
    · match rest with
      | [] => simp
      | d :: t => dsimp only; split <;> simp_all
    · match h : reSplitDelim rest with
      | [] => exact absurd h ih
      | f :: fs => simp

/-- Every character of every fragment produced by `reSplitDelim` is a
non-delimiter. -/
theorem reSplitDelim_chars (l : List Char) :
    ∀ f ∈ reSplitDelim l, ∀ c ∈ f, ¬ isItemDelim c := by
  induction l with
  | nil => intro f hf c hc; simp [reSplitDelim] at hf; subst hf; simp at hc
  | cons a rest ih =>
    intro f hf c hc
    simp only [reSplitDelim] at hf
    by_cases ha : isItemDelim a
    · simp only [ha, if_true] at hf
      match rest with
      | [] =>
        simp at hf
        rcases hf with hf | hf
        · subst hf; simp at hc
        · exact ih f hf c hc
      | d :: t =>
        dsimp only at hf
        by_cases hd : isItemDelim d
        · simp only [hd, if_true] at hf; exact ih f hf c hc
        · simp only [hd, if_false] at hf
          rcases List.mem_cons.mp hf with hf | hf
          · subst hf; simp at hc
          · exact ih f hf c hc
    · simp only [ha, if_false] at hf
      match h : reSplitDelim rest with
      | [] => exact absurd h (reSplitDelim_ne_nil rest)
      | g :: gs =>
        rw [h] at hf
        rcases List.mem_cons.mp hf with hf | hf
        · subst hf
          rcases List.mem_cons.mp hc with hc | hc
          · subst hc; simpa using ha
          · exact ih g (h ▸ List.mem_cons_self g gs) c hc
        · exact ih f (h ▸ List.mem_cons_of_mem g hf) c hc

theorem dropWhile_eq_self_of_not_head {p : Char → Bool} :
    ∀ {l : List Char}, (∀ c ∈ l, ¬ p c) → l.dropWhile p = l
  | [], _ => rfl
  | c :: t, h => by
    have : ¬ p c := h c (List.mem_cons_self c t)
    simp [List.dropWhile_cons, this]

/-- `strip` is the identity on whitespace-free fragments. -/
theorem strip_eq_self_of_no_ws {l : List Char} (h : ∀ c ∈ l, ¬ isSpaceChar c) :
    strip l = l := by
  unfold strip
  rw [dropWhile_eq_self_of_not_head h]
  rw [dropWhile_eq_self_of_not_head (by intro c hc; exact h c (List.mem_reverse.mp hc))]
  simp

theorem strip_eq_self_of_no_delim {l : List Char} (h : ∀ c ∈ l, ¬ isItemDelim c) :
    strip l = l :=
  strip_eq_self_of_no_ws (fun c hc hs => h c hc (by simp [isItemDelim, hs]))

theorem reSplitDelim_cons_nodelim {c : Char} (hc : ¬ isItemDelim c) (rest : List Char) :
    reSplitDelim (c :: rest) =
      match reSplitDelim rest with
      | f :: fs => (c :: f) :: fs
      | [] => [[c]] := by
  simp only [reSplitDelim, hc, if_false, Bool.false_eq_true]

/-- A string with no delimiter characters is a single fragment. -/
theorem reSplitDelim_nodelim {t : List Char} (h : ∀ c ∈ t, ¬ isItemDelim c) :
    reSplitDelim t = [t] := by
  induction t with
  | nil => rfl
  | cons c rest ih =>
    have hc : ¬ isItemDelim c := h c (List.mem_cons_self c rest)
    rw [reSplitDelim_cons_nodelim hc]
    rw [ih (fun d hd => h d (List.mem_cons_of_mem c hd))]

/-- Prepending delimiter-free text extends the first fragment. -/
theorem reSplitDelim_append_nodelim {t : List Char} (h : ∀ c ∈ t, ¬ isItemDelim c) :
    ∀ {s f : List Char} {fs : List (List Char)}, reSplitDelim s = f :: fs →
      reSplitDelim (t ++ s) = (t ++ f) :: fs := by
  induction t with
  | nil => intro s f fs hs; simpa using hs
  | cons c t' ih =>
    intro s f fs hs
    have hc : ¬ isItemDelim c := h c (List.mem_cons_self c t')
    have ht' : ∀ d ∈ t', ¬ isItemDelim d := fun d hd => h d (List.mem_cons_of_mem c hd)
    rw [List.cons_append, reSplitDelim_cons_nodelim hc, ih ht' hs]
    rfl

/-- A single space before a non-delimiter character opens a new fragment. -/
theorem reSplitDelim_space_cons {e : Char} (he : ¬ isItemDelim e) (s : List Char) :
    reSplitDelim (' ' :: e :: s) = [] :: reSplitDelim (e :: s) := by
  have hsp : isItemDelim ' ' = true := by decide
  simp only [reSplitDelim, hsp, if_true, he, if_false, Bool.false_eq_true]

theorem joinSpace_cons_eq_append (u : List Char) (rest : List (List Char)) :
    ∃ v, joinSpace (u :: rest) = u ++ v := by
  cases rest with
  | nil => exact ⟨[], by simp [joinSpace]⟩
  | cons w ws => exact ⟨' ' :: joinSpace (w :: ws), rfl⟩

/-- Splitting the space-joined concatenation of non-empty delimiter-free
tokens recovers exactly the token list. -/
theorem reSplitDelim_joinSpace {ts : List (List Char)}
    (h : ∀ t ∈ ts, t ≠ [] ∧ ∀ c ∈ t, ¬ isItemDelim c) (hne : ts ≠ []) :
    reSplitDelim (joinSpace ts) = ts := by
  induction ts with
  | nil => exact absurd rfl hne
  | cons t ts' ih =>
    obtain ⟨hte, htc⟩ := h t (List.mem_cons_self t ts')
    cases ts' with
    | nil => simpa [joinSpace] using reSplitDelim_nodelim htc
    | cons u rest =>
      have hu := h u (List.mem_cons_of_mem t (List.mem_cons_self u rest))
      have hrec : reSplitDelim (joinSpace (u :: rest)) = u :: rest :=
        ih (fun x hx => h x (List.mem_cons_of_mem t hx)) (by simp)
      obtain ⟨v, hv⟩ := joinSpace_cons_eq_append u rest
      match hu1 : u with
      | [] => exact absurd rfl hu.1
      | e :: u' =>
        have he : ¬ isItemDelim e := hu.2 e (List.mem_cons_self e u')
        have hsp : reSplitDelim (' ' :: joinSpace ((e :: u') :: rest)) =
            [] :: ((e :: u') :: rest) := by
          rw [show joinSpace ((e :: u') :: rest) = e :: (u' ++ v) from by
                simpa using hv]
          rw [reSplitDelim_space_cons he]
          rw [show e :: (u' ++ v) = joinSpace ((e :: u') :: rest) from by
                simpa using hv.symm]
          rw [hrec]
        have : joinSpace (t :: (e :: u') :: rest) =
            t ++ (' ' :: joinSpace ((e :: u') :: rest)) := rfl
        rw [this, reSplitDelim_append_nodelim htc hsp, List.append_nil]

/-- Every token produced by `splitItems` is non-empty and delimiter-free. -/
theorem splitItems_tokens (o : Option (List Char)) :
    ∀ t ∈ splitItems o, t ≠ [] ∧ ∀ c ∈ t, ¬ isItemDelim c := by
  intro t ht
  match o with
  | none => simp [splitItems] at ht
  | some [] => simp [splitItems] at ht
  | some (c :: raw) =>
    simp only [splitItems, List.mem_filter, List.mem_map, decide_eq_true_eq] at ht
    obtain ⟨⟨f, hf, hstrip⟩, hne⟩ := ht
    have hfc : ∀ d ∈ f, ¬ isItemDelim d := reSplitDelim_chars _ f hf
    have : strip f = f := strip_eq_self_of_no_delim hfc
    subst hstrip
    rw [this] at hne ⊢
    exact ⟨hne, hfc⟩

/-- `splitItems` on the space-joined rendering of its own output is the
identity. -/
theorem splitItems_joinSpace_of_tokens {ts : List (List Char)}
    (h : ∀ t ∈ ts, t ≠ [] ∧ ∀ c ∈ t, ¬ isItemDelim c) :
    splitItems (some (joinSpace ts)) = ts := by
  cases ts with
  | nil => rfl
  | cons t ts' =>
    have hmain : reSplitDelim (joinSpace (t :: ts')) = t :: ts' :=
      reSplitDelim_joinSpace h (by simp)
    obtain ⟨v, hv⟩ := joinSpace_cons_eq_append t ts'
    have hte := (h t (List.mem_cons_self t ts')).1
    have hjne : joinSpace (t :: ts') ≠ [] := by
      rw [hv]; intro hc; exact hte (List.append_eq_nil.mp hc).1
    match hj : joinSpace (t :: ts') with
    | [] => exact absurd hj hjne
    | j :: js =>
      simp only [splitItems]
      rw [← hj, hmain]
      have : (t :: ts').map strip = t :: ts' :=
        List.map_congr_left (fun x hx => strip_eq_self_of_no_delim ((h x hx).2)) |>.trans
          (List.map_id _)
      rw [this]
      exact List.filter_eq_self.mpr (fun x hx => by
        simpa using (h x hx).1)

set_option maxHeartbeats 1000000 in
/-- The six rules at one line, in precedence order, coincide with the code
loop body on that line. -/
theorem findSome_rules_eq (label : List Char) (lines : List (List Char)) (i : Nat) :
    (List.range 6).findSome? (fun r => ruleValue label lines i r) =
      match lines[i]? with
      | none => none
      | some line => checkLine label line lines[i + 1]? := by
  have h6 : List.range 6 = [0, 1, 2, 3, 4, 5] := rfl
  rw [h6]
  cases hL : lines[i]? with
  | none => simp [List.findSome?, ruleValue, hL]
  | some line =>
    simp only [List.findSome?, ruleValue, hL, checkLine]
    by_cases h0 : line = label
    · cases hN : lines[i + 1]? with
      | some nxt => simp [h0, hN]
      | none => simp only [h0, hN]; split_ifs <;> first | rfl | simp_all
    · simp only [h0]; split_ifs <;> first | rfl | simp_all

/-- Shifting the line index past a leading line. -/
theorem ruleValue_cons_succ (label line : List Char) (rest : List (List Char))
    (i r : Nat) :
    ruleValue label (line :: rest) (i + 1) r = ruleValue label rest i r := by
  simp only [ruleValue, List.getElem?_cons_succ]

/-- The specification's lookup and the embedded `_find_line_value`
coincide on every label and every line sequence. -/
theorem specLookup_eq_findLineValue (label : List Char)
    (lines : List (List Char)) :
    specLookup label lines = findLineValue label lines := by
  induction lines with
  | nil => rfl
  | cons line rest ih =>
    unfold specLookup
    rw [List.length_cons]
    rw [show List.range (rest.length + 1) = 0 :: (List.range rest.length).map Nat.succ
          from List.range_succ_eq_map _]
    rw [List.findSome?_cons]
    have hhead : (List.range 6).findSome?
        (fun r => ruleValue label (line :: rest) 0 r) =
        checkLine label line rest.head? := by
      rw [findSome_rules_eq]
      simp [List.head?_eq_getElem?]
    have htail : ((List.range rest.length).map Nat.succ).findSome?
        (fun i => (List.range 6).findSome?
          (fun r => ruleValue label (line :: rest) i r)) =
        specLookup label rest := by
      rw [List.findSome?_map]
      unfold specLookup
      have hfun : ((fun i => (List.range 6).findSome?
            (fun r => ruleValue label (line :: rest) i r)) ∘ Nat.succ) =
          (fun i => (List.range 6).findSome?
            (fun r => ruleValue label rest i r)) := by
        funext i
        simp only [Function.comp_apply]
        exact congrArg (fun f => List.findSome? f (List.range 6))
          (funext fun r => ruleValue_cons_succ label line rest i r)
      rw [hfun]
    rw [hhead]
    cases hc : checkLine label line rest.head? with
    | some v => simp [findLineValue, hc]
    | none => simp only [htail, ih, findLineValue, hc]

/- ### Lemmas about `_extract_chong` and the parenthesis stripper -/

/-- The scan of the animal pattern equals the first-good-position rule. -/
theorem amendedChongAnimal_eq (raw : List Char) :
    amendedChongAnimal raw = chongAnimal raw := by
  induction raw with
  | nil => rfl
  | cons c rest ih =>
    unfold amendedChongAnimal
    rw [List.length_cons]
    rw [show List.range (rest.length + 1) = 0 :: (List.range rest.length).map Nat.succ
          from List.range_succ_eq_map _]
    rw [List.findSome?_cons]
    have hshift : ((List.range rest.length).map Nat.succ).findSome?
        (animalAt (c :: rest)) = amendedChongAnimal rest := by
      rw [List.findSome?_map]
      unfold amendedChongAnimal
      have hfun : (animalAt (c :: rest) ∘ Nat.succ) = animalAt rest := by
        funext i
        simp only [Function.comp_apply, animalAt, List.getElem?_cons_succ,
          List.drop_succ_cons]
      rw [hfun]
    have hhead : animalAt (c :: rest) 0 =
        if c = '冲' ∧ rest.takeWhile notChongStop ≠ [] then
          some (strip (rest.takeWhile notChongStop)) else none := by
      simp only [animalAt, List.getElem?_cons_zero, List.drop_succ_cons,
        List.drop_zero, Option.some.injEq]
    rw [hhead, hshift, ih]
    simp only [chongAnimal]
    by_cases hP : c = '冲' ∧ rest.takeWhile notChongStop ≠ []
    · rw [if_pos hP, if_pos hP]
    · rw [if_neg hP, if_neg hP]

/-- The scan of the branch pattern equals the first-good-position rule. -/
theorem amendedChongBranch_eq (raw : List Char) :
    amendedChongBranch raw = chongBranch raw := by
  induction raw with
  | nil => rfl
  | cons c rest ih =>
    unfold amendedChongBranch
    rw [List.length_cons]
    rw [show List.range (rest.length + 1) = 0 :: (List.range rest.length).map Nat.succ
          from List.range_succ_eq_map _]
    rw [List.findSome?_cons]
    have hshift : ((List.range rest.length).map Nat.succ).findSome?
        (branchAt (c :: rest)) = amendedChongBranch rest := by
      rw [List.findSome?_map]
      unfold amendedChongBranch
      have hfun : (branchAt (c :: rest) ∘ Nat.succ) = branchAt rest := by
        funext i
        simp only [Function.comp_apply, branchAt, List.getElem?_cons_succ,
          List.drop_succ_cons]
      rw [hfun]
    have hhead : branchAt (c :: rest) 0 =
        if c = '(' ∧ rest.takeWhile (fun d => d ≠ ')') ≠ [] ∧
            rest.drop (rest.takeWhile (fun d => d ≠ ')')).length ≠ [] then
          some (strip (rest.takeWhile (fun d => d ≠ ')'))) else none := by
      simp only [branchAt, List.getElem?_cons_zero, List.drop_succ_cons,
        List.drop_zero, Option.some.injEq]
    rw [hhead, hshift, ih]
    simp only [chongBranch]
    by_cases hP : c = '(' ∧ rest.takeWhile (fun d => d ≠ ')') ≠ [] ∧
        rest.drop (rest.takeWhile (fun d => d ≠ ')')).length ≠ []
    · rw [if_pos hP, if_pos hP]
    · rw [if_neg hP, if_neg hP]

/-- With enough fuel, the group remover is the identity on strings with no
opening parenthesis. -/
theorem removeParensGo_no_paren :
    ∀ (fuel : Nat) (l : List Char), l.length ≤ fuel → (∀ c ∈ l, c ≠ '(') →
      removeParensGo fuel l = l := by
  intro fuel
  induction fuel with
  | zero =>
    intro l hl _
    cases l with
    | nil => rfl
    | cons c t => simp at hl
  | succ n ih =>
    intro l hl hc
    cases l with
    | nil => rfl
    | cons c t =>
      have hcne : ¬ (c = '(') := hc c (List.mem_cons_self c t)
      simp only [removeParensGo, hcne, if_false]
      rw [ih t (by simpa using Nat.succ_le_succ_iff.mp (by simpa using hl))
            (fun d hd => hc d (List.mem_cons_of_mem c hd))]

/-- `re.sub(r"\(.*?\)", "", s)` leaves paren-free text unchanged. -/
theorem removeParens_no_paren {l : List Char} (h : ∀ c ∈ l, c ≠ '(') :
    removeParens l = l :=
  removeParensGo_no_paren l.length l le_rfl h

/- ### Lemmas about the fetch loop -/

/-- A non-zero cache-write count can only come from some attempt within
the loop's window answering with status 200. -/
theorem fetchGo_cacheWrites_success (rs : Nat → Outcome) :
    ∀ (fuel attempt : Nat) (last : Option ErrDesc) (sleeps : Nat),
      (fetchGo rs attempt fuel last sleeps).cacheWrites ≠ 0 →
      ∃ i, attempt ≤ i ∧ i < attempt + fuel ∧ ∃ b, rs i = .ok 200 b := by
  intro fuel
  induction fuel with
  | zero => intro attempt last sleeps hw; simp [fetchGo] at hw
  | succ n ih =>
    intro attempt last sleeps hw
    rcases h : rs attempt with ⟨code, body⟩ | m
    · by_cases hc : code = 200
      · exact ⟨attempt, le_rfl, by omega, body, by rw [h, hc]⟩
      · rw [show fetchGo rs attempt (n + 1) last sleeps =
              fetchGo rs (attempt + 1) n (some (.statusCode code))
                (if attempt < 2 then sleeps + 1 else sleeps) from by
                simp only [fetchGo, h, hc, if_false]] at hw
        obtain ⟨i, h1, h2, hb⟩ := ih (attempt + 1) _ _ hw
        exact ⟨i, by omega, by omega, hb⟩
    · rw [show fetchGo rs attempt (n + 1) last sleeps =
            fetchGo rs (attempt + 1) n (some (.exnMsg m))
              (if attempt < 2 then sleeps + 1 else sleeps) from by
              simp only [fetchGo, h]] at hw
      obtain ⟨i, h1, h2, hb⟩ := ih (attempt + 1) _ _ hw
      exact ⟨i, by omega, by omega, hb⟩

/- ### Lemmas about dates and the range driver -/

theorem dateRange_unfold (cur e : CalDate) :
    dateRange cur e = if dateLe cur e then cur :: dateRange (nextDate cur) e else [] := by
  rw [dateRange]
  exact dite_eq_ite

theorem daysInMonth_pos (y m : Nat) : 1 ≤ daysInMonth y m := by
  unfold daysInMonth; split_ifs <;> omega

/-- Stepping one day forward strictly increases the date. -/
theorem dateLt_next_self (d : CalDate) : dateLt d (nextDate d) := by
  rcases d with ⟨y, m, day⟩
  unfold nextDate
  split_ifs with h1 h2 <;> (unfold dateLt; dsimp only; omega)

theorem not_dateLe_of_dateLt {a b : CalDate} (h : dateLt a b) : ¬ dateLe b a := by
  intro hle
  unfold dateLt at h
  unfold dateLe at hle
  omega

theorem dateLt_of_dateLe_ne {a b : CalDate} (h : dateLe a b) (hne : a ≠ b) :
    dateLt a b := by
  rcases a with ⟨y1, m1, d1⟩
  rcases b with ⟨y2, m2, d2⟩
  simp only [ne_eq, CalDate.mk.injEq, not_and] at hne
  unfold dateLe at h
  unfold dateLt
  dsimp only at *
  by_cases hy : y1 = y2
  · by_cases hm : m1 = m2
    · have := hne hy hm; omega
    · omega
  · omega

/-- The successor of a valid date is valid. -/
theorem validDate_next {d : CalDate} (h : validDate d) : validDate (nextDate d) := by
  rcases d with ⟨y, m, day⟩
  unfold validDate at h
  unfold nextDate
  dsimp only at *
  split_ifs with h1 h2
  · unfold validDate; dsimp only; omega
  · unfold validDate; dsimp only
    have := daysInMonth_pos y (m + 1)
    omega
  · unfold validDate; dsimp only
    have := daysInMonth_pos (y + 1) 1
    omega

/-- Between valid dates, the successor does not overshoot a strictly later
date. -/
theorem nextDate_le_of_lt {a b : CalDate} (ha : validDate a) (hb : validDate b)
    (h : dateLt a b) : dateLe (nextDate a) b := by
  rcases a with ⟨y1, m1, d1⟩
  rcases b with ⟨y2, m2, d2⟩
  unfold validDate at ha hb
  unfold dateLt at h
  dsimp only at *
  rcases h with hy | ⟨hy, hm | ⟨hm, hd⟩⟩
  · unfold nextDate
    split_ifs with h1 h2 <;> (unfold dateLe; dsimp only at *; omega)
  · subst hy
    unfold nextDate
    split_ifs with h1 h2 <;> (unfold dateLe; dsimp only at *; omega)
  · subst hy; subst hm
    unfold nextDate
    split_ifs with h1 h2 <;> (unfold dateLe; dsimp only at *; omega)

/-- The date range of a valid non-empty interval starts at `cur`, ends at
`end_`, and is strictly ascending. -/
theorem dateRange_props (cur e : CalDate) :
    validDate cur → validDate e → dateLe cur e →
      (dateRange cur e).head? = some cur ∧
      (dateRange cur e).getLast? = some e ∧
      List.Chain' dateLt (dateRange cur e) := by
  induction cur, e using dateRange.induct with
  | case1 cur e hle ih =>
    intro hv hve _
    rw [dateRange_unfold, if_pos hle]
    by_cases heq : cur = e
    · subst heq
      have hnn : ¬ dateLe (nextDate cur) cur :=
        not_dateLe_of_dateLt (dateLt_next_self cur)
      rw [dateRange_unfold, if_neg hnn]
      exact ⟨rfl, rfl, by simp⟩
    · have hlt := dateLt_of_dateLe_ne hle heq
      have hnle := nextDate_le_of_lt hv hve hlt
      have hnv := validDate_next hv
      obtain ⟨ih1, ih2, ih3⟩ := ih hnv hve hnle
      refine ⟨rfl, ?_, ?_⟩
      · match hl : dateRange (nextDate cur) e with
        | [] => rw [hl] at ih1; simp at ih1
        | x :: xs =>
          rw [hl] at ih2
          rw [List.getLast?_cons_cons]
          exact ih2
      · match hl : dateRange (nextDate cur) e with
        | [] => simp
        | x :: xs =>
          rw [hl] at ih1 ih3
          have hx : x = nextDate cur := by simpa using ih1
          rw [List.chain'_cons]
          exact ⟨hx ▸ dateLt_next_self cur, ih3⟩
  | case2 cur e hnle =>
    intro _ _ hle
    exact absurd hle hnle

/-- When every fetch succeeds, the loop writes one record per date, in
order, each carrying its date formatted. -/
theorem runRange_all_ok (fetch : CalDate → Except ErrDesc (List Char))
    (urlOf : CalDate → List Char) :
    ∀ ds : List CalDate, (∀ x ∈ ds, ∃ h, fetch x = .ok h) →
      (runRange fetch urlOf ds).1.map (fun r => r.date) = ds.map formatDate ∧
      (runRange fetch urlOf ds).2.1 = ds.length ∧
      (runRange fetch urlOf ds).2.2 = none := by
  intro ds
  induction ds with
  | nil => intro _; exact ⟨rfl, rfl, rfl⟩
  | cons d ds ih =>
    intro h
    obtain ⟨html, hf⟩ := h d (List.mem_cons_self d ds)
    obtain ⟨i1, i2, i3⟩ := ih (fun x hx => h x (List.mem_cons_of_mem d hx))
    simp only [runRange, hf]
    refine ⟨?_, ?_, i3⟩
    · simp only [List.map_cons, i1]
      rfl
    · simp only [List.length_cons, i2]

/-- The first failing date aborts the loop: records exist exactly for the
preceding dates, the failing and later dates produce none, and the error
is the fetcher's. -/
theorem runRange_abort (fetch : CalDate → Except ErrDesc (List Char))
    (urlOf : CalDate → List Char) (e : ErrDesc) :
    ∀ (ds₁ : List CalDate) (d : CalDate) (ds₂ : List CalDate),
      (∀ x ∈ ds₁, ∃ h, fetch x = .ok h) → fetch d = .error e →
      (runRange fetch urlOf (ds₁ ++ d :: ds₂)).1.map (fun r => r.date) =
        ds₁.map formatDate ∧
      (runRange fetch urlOf (ds₁ ++ d :: ds₂)).2.1 = ds₁.length + 1 ∧
      (runRange fetch urlOf (ds₁ ++ d :: ds₂)).2.2 = some e := by
  intro ds₁
  induction ds₁ with
  | nil =>
    intro d ds₂ _ hf
    refine ⟨?_, ?_, ?_⟩ <;> simp [runRange, hf]
  | cons a ds ih =>
    intro d ds₂ h hf
    obtain ⟨html, ha⟩ := h a (List.mem_cons_self a ds)
    obtain ⟨i1, i2, i3⟩ := ih d ds₂ (fun x hx => h x (List.mem_cons_of_mem a hx)) hf
    simp only [List.cons_append, runRange, ha, List.append_eq]
    refine ⟨?_, ?_, i3⟩
    · simp only [List.map_cons, i1]
      rfl
    · simp only [List.length_cons, i2]

/- ### Claim theorems -/

/-- C2: a cache miss followed by three consecutive failed attempts makes
exactly 3 HTTP attempts with a 1-second pause between consecutive attempts
(2 pauses), performs zero cache writes, and fails with exactly one
`FetchError` carrying the last observed error or status description;
moreover, for every run the cache is written only when some attempt
returned status 200. -/
theorem C2_fetch_three_failures (responses : Nat → Outcome)
    (hfail : ∀ i, i < 3 → isFailureOutcome (responses i)) :
    fetchHtml none responses =
      ⟨3, 2, 0, .error (describeFailure (responses 2))⟩ ∧
    (∀ (cached : Option (List Char)) (rs : Nat → Outcome),
      (fetchHtml cached rs).cacheWrites ≠ 0 → ∃ i, i < 3 ∧ ∃ b, rs i = .ok 200 b) := by
  constructor
  · have f0 := hfail 0 (by omega)
    have f1 := hfail 1 (by omega)
    have f2 := hfail 2 (by omega)
    show fetchGo responses 0 3 none 0 = _
    rcases h0 : responses 0 with ⟨c0, b0⟩ | m0 <;>
      rcases h1 : responses 1 with ⟨c1, b1⟩ | m1 <;>
        rcases h2 : responses 2 with ⟨c2, b2⟩ | m2 <;>
          rw [h0] at f0 <;> rw [h1] at f1 <;> rw [h2] at f2 <;>
            simp only [isFailureOutcome] at f0 f1 f2 <;>
              simp [fetchGo, h0, h1, h2, f0, f1, f2, describeFailure]
  · intro cached rs hw
    match cached with
    | some t => simp [fetchHtml] at hw
    | none =>
      obtain ⟨i, h1, h2, hb⟩ :=
        fetchGo_cacheWrites_success rs 3 0 none 0 (by simpa [fetchHtml] using hw)
      exact ⟨i, by omega, hb⟩

/-- Witness for C2: three 404 responses. -/
theorem C2_fetch_three_failures_witness :
    fetchHtml none (fun _ => Outcome.ok 404 []) =
      ⟨3, 2, 0, .error (describeFailure (Outcome.ok 404 []))⟩ :=
  (C2_fetch_three_failures (fun _ => Outcome.ok 404 [])
    (fun _ _ => by simp [isFailureOutcome])).1

/-- C8: when the cache already holds the page, `fetch_html` returns exactly
the cached text with zero HTTP attempts, zero sleeps and zero cache
writes. -/
theorem C8_fetch_cache_hit (text : List Char) (responses : Nat → Outcome) :
    fetchHtml (some text) responses = ⟨0, 0, 0, .ok text⟩ :=
  rfl

/-- C1: for every requested label and every ordered sequence of non-empty
normalized lines, `_find_line_value` returns exactly what the six-rule
precedence lookup of the specification returns: the lines are scanned in
order, the six rules are tried on each line in the stated precedence
order, the first match wins (values whitespace-stripped as stated in the
spec), and the label is absent precisely when no rule matches any line. -/
theorem C1_find_line_value_matches_spec (label : List Char)
    (lines : List (List Char)) :
    findLineValue label lines = specLookup label lines :=
  (specLookup_eq_findLineValue label lines).symm

/-- C7: the item-list split is idempotent — joining any split result with
single spaces and splitting again reproduces the original split result. -/
theorem C7_split_items_idempotent (raw : List Char) :
    splitItems (some (joinSpace (splitItems (some raw)))) = splitItems (some raw) :=
  splitItems_joinSpace_of_tokens (splitItems_tokens _)

/-- C5 counterexample: on the raw value `青(吉)龙` the code's deity name is
`青龙` — the parenthesized group is removed even though it is *not*
trailing — whereas stripping only a trailing parenthesized group, as the
claim states, would leave `青(吉)龙` unchanged. -/
theorem C5_counterexample_zhishen :
    (zhishenOf (some ("青(吉)龙".toList))).1 = some ("青龙".toList) ∧
    stripTrailingParen ("青(吉)龙".toList) = "青(吉)龙".toList ∧
    ("青龙".toList : List Char) ≠ "青(吉)龙".toList := by
  refine ⟨by decide, by decide, by decide⟩

/-- C5 (amended): for every present (non-empty) patron-deity raw value the
auspicious-day flag is true iff the raw unstripped text contains the
literal marker `黄道`, and the deity name removes *every* parenthesized
group anywhere in the raw text (not only a trailing one) and strips
surrounding whitespace; text without any opening parenthesis is returned
with only whitespace stripping, and `青龙(黄道)` yields name `青龙` with
flag true. -/
theorem C5_amended_zhishen (raw : List Char) (h : raw ≠ []) :
    (zhishenOf (some raw)).2 = containsSub hdMarker raw ∧
    (zhishenOf (some raw)).1 = some (strip (removeParens raw)) ∧
    ((∀ c ∈ raw, c ≠ '(') → (zhishenOf (some raw)).1 = some (strip raw)) ∧
    zhishenOf (some ("青龙(黄道)".toList)) = (some ("青龙".toList), true) := by
  match raw, h with
  | c :: rest, _ =>
    refine ⟨rfl, rfl, ?_, by decide⟩
    intro hp
    simp only [zhishenOf]
    rw [removeParens_no_paren hp]

/-- Witness for C5 at the concrete raw value `青龙黄道`. -/
theorem C5_amended_zhishen_witness :
    (zhishenOf (some ("青龙黄道".toList))).1 = some (strip ("青龙黄道".toList)) :=
  (C5_amended_zhishen ("青龙黄道".toList) (by decide)).2.2.1 (by decide)

/-- C6 counterexample: on the raw value `冲煞冲狗()x(甲)` the code yields
animal `狗` and branch `甲`, because the regex scan skips a `冲` directly
followed by `煞` and a `()` pair with empty inside; the claim's literal
rules (run after the *first* `冲`, text inside the *first* parenthesis
pair) would instead yield no animal and an empty branch. -/
theorem C6_counterexample_chong :
    (extractChong (some ("冲煞冲狗()x(甲)".toList))).animal = some ("狗".toList) ∧
    claimChongAnimal ("冲煞冲狗()x(甲)".toList) = none ∧
    (extractChong (some ("冲煞冲狗()x(甲)".toList))).branch = some ("甲".toList) ∧
    claimChongBranch ("冲煞冲狗()x(甲)".toList) = some [] ∧
    (some ("狗".toList) : Option (List Char)) ≠ none ∧
    (some ("甲".toList) : Option (List Char)) ≠ some [] := by
  refine ⟨by decide, by decide, by decide, by decide, by decide, by decide⟩

/-- C6 (amended): for every present clash-field raw value, the animal
sub-part comes from the first `冲` that is immediately followed by a
non-empty run of characters other than `(` and `煞` (the run extends to
the next `(` or `煞` or to the end, whitespace-stripped; `冲` occurrences
directly followed by `(`/`煞`/the end are skipped), and the branch
sub-part comes from the first parenthesis pair enclosing non-empty text
(whitespace-stripped; `()` and unclosed `(` are skipped); either sub-part
may independently be absent, and `冲狗(甲戌)煞南` yields animal `狗` and
branch `甲戌`. -/
theorem C6_amended_chong (raw : List Char) (h : raw ≠ []) :
    extractChong (some raw) =
      ⟨some raw, amendedChongAnimal raw, amendedChongBranch raw⟩ ∧
    extractChong (some ("冲狗(甲戌)煞南".toList)) =
      ⟨some ("冲狗(甲戌)煞南".toList), some ("狗".toList), some ("甲戌".toList)⟩ := by
  match raw, h with
  | c :: rest, _ =>
    refine ⟨?_, by decide⟩
    simp only [extractChong]
    rw [amendedChongAnimal_eq, amendedChongBranch_eq]

/-- C3: field extraction is total — `parseAlmanacHtml` is a function
returning a record on every input — and every field whose label search
finds no match anywhere in the page degrades independently to an empty
list or `none` sub-fields rather than an error. -/
theorem C3_parse_never_fails_degrades (html : List Char) (d : CalDate)
    (url : List Char) :
    (findLineValue ("宜".toList) (normalizeLines html) = none →
      (parseAlmanacHtml html d url).yi = []) ∧
    (findLineValue ("忌".toList) (normalizeLines html) = none →
      (parseAlmanacHtml html d url).ji = []) ∧
    (findLineValue ("值神".toList) (normalizeLines html) = none →
      (parseAlmanacHtml html d url).zhishen = none ∧
      (parseAlmanacHtml html d url).huangdao = false) ∧
    (findLineValue ("十二神".toList) (normalizeLines html) = none →
      (parseAlmanacHtml html d url).shier_shen = none) ∧
    (findLineValue ("星宿".toList) (normalizeLines html) = none →
      (parseAlmanacHtml html d url).xingxiu = none ∧
      (parseAlmanacHtml html d url).xingxiu_jixiong = none) ∧
    (findLineValue ("冲煞".toList) (normalizeLines html) = none →
      findLineValue ("冲".toList) (normalizeLines html) = none →
      (parseAlmanacHtml html d url).chong = ⟨none, none, none⟩) ∧
    (reSearchColonCapture ("年空亡".toList) (joinSpace (normalizeLines html)) = none →
      (parseAlmanacHtml html d url).kongwang.year = none) ∧
    (reSearchColonCapture ("月空亡".toList) (joinSpace (normalizeLines html)) = none →
      (parseAlmanacHtml html d url).kongwang.month = none) ∧
    (reSearchColonCapture ("日空亡".toList) (joinSpace (normalizeLines html)) = none →
      (parseAlmanacHtml html d url).kongwang.day = none) ∧
    (reSearchColonCapture ("年三煞".toList) (joinSpace (normalizeLines html)) = none →
      (parseAlmanacHtml html d url).sansha.year = none) ∧
    (reSearchColonCapture ("月三煞".toList) (joinSpace (normalizeLines html)) = none →
      (parseAlmanacHtml html d url).sansha.month = none) ∧
    (reSearchColonCapture ("日三煞".toList) (joinSpace (normalizeLines html)) = none →
      (parseAlmanacHtml html d url).sansha.day = none) ∧
    (reSearchColonCapture ("年七煞".toList) (joinSpace (normalizeLines html)) = none →
      (parseAlmanacHtml html d url).qisha.year = none) ∧
    (reSearchColonCapture ("月七煞".toList) (joinSpace (normalizeLines html)) = none →
      (parseAlmanacHtml html d url).qisha.month = none) ∧
    (reSearchColonCapture ("日七煞".toList) (joinSpace (normalizeLines html)) = none →
      (parseAlmanacHtml html d url).qisha.day = none) ∧
    (findLineValue ("吉神宜趋".toList) (normalizeLines html) = none →
      findLineValue ("吉神".toList) (normalizeLines html) = none →
      findLineValue ("吉神宜趋：".toList) (normalizeLines html) = none →
      (parseAlmanacHtml html d url).jishen = []) ∧
    (findLineValue ("凶煞宜忌".toList) (normalizeLines html) = none →
      findLineValue ("凶煞".toList) (normalizeLines html) = none →
      (parseAlmanacHtml html d url).xiongsha = []) := by
  refine ⟨?_, ?_, ?_, ?_, ?_, ?_, ?_, ?_, ?_, ?_, ?_, ?_, ?_, ?_, ?_, ?_, ?_⟩
  · intro h
    show splitItems (findLineValue ("宜".toList) (normalizeLines html)) = []
    rw [h]; rfl
  · intro h
    show splitItems (findLineValue ("忌".toList) (normalizeLines html)) = []
    rw [h]; rfl
  · intro h
    constructor
    · show (zhishenOf (findLineValue ("值神".toList) (normalizeLines html))).1 = none
      rw [h]; rfl
    · show (zhishenOf (findLineValue ("值神".toList) (normalizeLines html))).2 = false
      rw [h]; rfl
  · intro h
    show findLineValue ("十二神".toList) (normalizeLines html) = none
    exact h
  · intro h
    constructor
    · show (extractXingxiu (findLineValue ("星宿".toList) (normalizeLines html))).1 = none
      rw [h]; rfl
    · show (extractXingxiu (findLineValue ("星宿".toList) (normalizeLines html))).2 = none
      rw [h]; rfl
  · intro h1 h2
    show extractChong (pyOr (findLineValue ("冲煞".toList) (normalizeLines html))
      (findLineValue ("冲".toList) (normalizeLines html))) = ⟨none, none, none⟩
    rw [h1, h2]; rfl
  · intro h
    show (reSearchColonCapture ("年空亡".toList)
      (joinSpace (normalizeLines html))).map strip = none
    rw [h]; rfl
  · intro h
    show (reSearchColonCapture ("月空亡".toList)
      (joinSpace (normalizeLines html))).map strip = none
    rw [h]; rfl
  · intro h
    show (reSearchColonCapture ("日空亡".toList)
      (joinSpace (normalizeLines html))).map strip = none
    rw [h]; rfl
  · intro h
    show (reSearchColonCapture ('年' :: "三煞".toList)
      (joinSpace (normalizeLines html))).map strip = none
    rw [show ('年' :: "三煞".toList) = "年三煞".toList from rfl, h]; rfl
  · intro h
    show (reSearchColonCapture ('月' :: "三煞".toList)
      (joinSpace (normalizeLines html))).map strip = none
    rw [show ('月' :: "三煞".toList) = "月三煞".toList from rfl, h]; rfl
  · intro h
    show (reSearchColonCapture ('日' :: "三煞".toList)
      (joinSpace (normalizeLines html))).map strip = none
    rw [show ('日' :: "三煞".toList) = "日三煞".toList from rfl, h]; rfl
  · intro h
    show (reSearchColonCapture ('年' :: "七煞".toList)
      (joinSpace (normalizeLines html))).map strip = none
    rw [show ('年' :: "七煞".toList) = "年七煞".toList from rfl, h]; rfl
  · intro h
    show (reSearchColonCapture ('月' :: "七煞".toList)
      (joinSpace (normalizeLines html))).map strip = none
    rw [show ('月' :: "七煞".toList) = "月七煞".toList from rfl, h]; rfl
  · intro h
    show (reSearchColonCapture ('日' :: "七煞".toList)
      (joinSpace (normalizeLines html))).map strip = none
    rw [show ('日' :: "七煞".toList) = "日七煞".toList from rfl, h]; rfl
  · intro h1 h2 h3
    show splitItems (pyOr (pyOr (findLineValue ("吉神宜趋".toList) (normalizeLines html))
      (findLineValue ("吉神".toList) (normalizeLines html)))
      (findLineValue ("吉神宜趋：".toList) (normalizeLines html))) = []
    rw [h1, h2, h3]; rfl
  · intro h1 h2
    show splitItems (pyOr (findLineValue ("凶煞宜忌".toList) (normalizeLines html))
      (findLineValue ("凶煞".toList) (normalizeLines html))) = []
    rw [h1, h2]; rfl

/-- Witness for C3 at the empty page, where every label search misses. -/
theorem C3_parse_never_fails_degrades_witness :
    (parseAlmanacHtml [] ⟨2026, 3, 9⟩ []).yi = [] ∧
    (parseAlmanacHtml [] ⟨2026, 3, 9⟩ []).zhishen = none ∧
    (parseAlmanacHtml [] ⟨2026, 3, 9⟩ []).chong = ⟨none, none, none⟩ ∧
    (parseAlmanacHtml [] ⟨2026, 3, 9⟩ []).kongwang.year = none :=
  ⟨(C3_parse_never_fails_degrades [] ⟨2026, 3, 9⟩ []).1 rfl,
   ((C3_parse_never_fails_degrades [] ⟨2026, 3, 9⟩ []).2.2.1 rfl).1,
   (C3_parse_never_fails_degrades [] ⟨2026, 3, 9⟩ []).2.2.2.2.2.1 rfl rfl,
   (C3_parse_never_fails_degrades [] ⟨2026, 3, 9⟩ []).2.2.2.2.2.2.1 rfl⟩

/-- C4: for every html input and every requested date, the record's date
field is exactly the requested date formatted `YYYY-MM-DD`, regardless of
the page text, and the list-valued fields `yi`, `ji`, `jishen`, `xiongsha`
contain no empty-string entries. -/
theorem C4_record_date_and_no_empty_items (html : List Char) (d : CalDate)
    (url : List Char) :
    (parseAlmanacHtml html d url).date = formatDate d ∧
    (∀ t ∈ (parseAlmanacHtml html d url).yi, t ≠ []) ∧
    (∀ t ∈ (parseAlmanacHtml html d url).ji, t ≠ []) ∧
    (∀ t ∈ (parseAlmanacHtml html d url).jishen, t ≠ []) ∧
    (∀ t ∈ (parseAlmanacHtml html d url).xiongsha, t ≠ []) := by
  refine ⟨rfl, ?_, ?_, ?_, ?_⟩ <;>
    exact fun t ht => (splitItems_tokens _ t ht).1

/-- Witness for C4 at a concrete page carrying a `宜` value. -/
theorem C4_record_date_and_no_empty_items_witness :
    (parseAlmanacHtml ("宜：出行".toList) ⟨2026, 3, 9⟩ []).date =
      formatDate ⟨2026, 3, 9⟩ ∧
    ("出行".toList : List Char) ≠ [] :=
  ⟨(C4_record_date_and_no_empty_items ("宜：出行".toList) ⟨2026, 3, 9⟩ []).1,
   (C4_record_date_and_no_empty_items ("宜：出行".toList) ⟨2026, 3, 9⟩ []).2.1
     ("出行".toList) (by decide)⟩

/-- C9: for valid dates `start ≤ end`, the driver iterates the dates
inclusive of both endpoints in strictly ascending order; with an
all-success fetcher it writes exactly one output line per date, in order,
each line's date field being the requested date, and completes; at the
first failing date it aborts with the fetcher's error, having written
lines exactly for the preceding dates and none for the failing or any
later date; and a single-day range iterates exactly that one day. -/
theorem C9_range_driver (start end_ : CalDate)
    (fetch : CalDate → Except ErrDesc (List Char)) (urlOf : CalDate → List Char)
    (hvs : validDate start) (hve : validDate end_) (hle : dateLe start end_) :
    ((dateRange start end_).head? = some start ∧
     (dateRange start end_).getLast? = some end_ ∧
     List.Chain' dateLt (dateRange start end_)) ∧
    ((∀ x ∈ dateRange start end_, ∃ h, fetch x = .ok h) →
      (buildAlmanac ("huangli123".toList) start end_ fetch urlOf).records.map
        (fun r => r.date) = (dateRange start end_).map formatDate ∧
      (buildAlmanac ("huangli123".toList) start end_ fetch urlOf).fetchCalls =
        (dateRange start end_).length ∧
      (buildAlmanac ("huangli123".toList) start end_ fetch urlOf).outcome =
        .completed) ∧
    (∀ (e : ErrDesc) (ds₁ ds₂ : List CalDate) (d : CalDate),
      dateRange start end_ = ds₁ ++ d :: ds₂ →
      (∀ x ∈ ds₁, ∃ h, fetch x = .ok h) → fetch d = .error e →
      (buildAlmanac ("huangli123".toList) start end_ fetch urlOf).records.map
        (fun r => r.date) = ds₁.map formatDate ∧
      (buildAlmanac ("huangli123".toList) start end_ fetch urlOf).fetchCalls =
        ds₁.length + 1 ∧
      (buildAlmanac ("huangli123".toList) start end_ fetch urlOf).outcome =
        .fetchFailed e) ∧
    (start = end_ → dateRange start end_ = [start]) := by
  have hreg : sourcesHas ("huangli123".toList) = true := rfl
  refine ⟨dateRange_props start end_ hvs hve hle, ?_, ?_, ?_⟩
  · intro hok
    obtain ⟨r1, r2, r3⟩ := runRange_all_ok fetch urlOf (dateRange start end_) hok
    refine ⟨?_, ?_, ?_⟩
    · show (runRange fetch urlOf (dateRange start end_)).1.map (fun r => r.date) = _
      exact r1
    · show (runRange fetch urlOf (dateRange start end_)).2.1 = _
      exact r2
    · show (match (runRange fetch urlOf (dateRange start end_)).2.2 with
        | none => RunOutcome.completed
        | some e => RunOutcome.fetchFailed e) = RunOutcome.completed
      rw [r3]
  · intro e ds₁ ds₂ d hsplit hok hf
    obtain ⟨r1, r2, r3⟩ := runRange_abort fetch urlOf e ds₁ d ds₂ hok hf
    refine ⟨?_, ?_, ?_⟩
    · show (runRange fetch urlOf (dateRange start end_)).1.map (fun r => r.date) = _
      rw [hsplit]
      exact r1
    · show (runRange fetch urlOf (dateRange start end_)).2.1 = _
      rw [hsplit]
      exact r2
    · show (match (runRange fetch urlOf (dateRange start end_)).2.2 with
        | none => RunOutcome.completed
        | some e => RunOutcome.fetchFailed e) = RunOutcome.fetchFailed e
      rw [hsplit, r3]
  · intro heq
    subst heq
    rw [dateRange_unfold, if_pos hle, dateRange_unfold,
      if_neg (not_dateLe_of_dateLt (dateLt_next_self start))]

/-- Witness for C9: the single-day range 2026-03-09 with an all-success
fetcher. -/
theorem C9_range_driver_witness :
    dateRange ⟨2026, 3, 9⟩ ⟨2026, 3, 9⟩ = [⟨2026, 3, 9⟩] ∧
    (buildAlmanac ("huangli123".toList) ⟨2026, 3, 9⟩ ⟨2026, 3, 9⟩
        (fun _ => .ok []) (fun _ => [])).records.map (fun r => r.date) =
      (dateRange ⟨2026, 3, 9⟩ ⟨2026, 3, 9⟩).map formatDate :=
  ⟨(C9_range_driver ⟨2026, 3, 9⟩ ⟨2026, 3, 9⟩ (fun _ => .ok []) (fun _ => [])
      (by decide) (by decide) (by decide)).2.2.2 rfl,
   ((C9_range_driver ⟨2026, 3, 9⟩ ⟨2026, 3, 9⟩ (fun _ => .ok []) (fun _ => [])
      (by decide) (by decide) (by decide)).2.1 (fun x _ => ⟨[], rfl⟩)).1⟩

/-- C10: with the registered source and `start > end`, the run raises no
error, performs no fetch, and still creates (or truncates) the output
file, leaving it with zero lines. -/
theorem C10_empty_range (start end_ : CalDate)
    (fetch : CalDate → Except ErrDesc (List Char)) (urlOf : CalDate → List Char)
    (h : ¬ dateLe start end_) :
    buildAlmanac ("huangli123".toList) start end_ fetch urlOf =
      ⟨[], 0, true, .completed⟩ := by
  unfold buildAlmanac
  rw [dateRange_unfold, if_neg h]
  rfl

/-- Witness for C10: an inverted one-day range. -/
theorem C10_empty_range_witness :
    buildAlmanac ("huangli123".toList) ⟨2026, 3, 10⟩ ⟨2026, 3, 9⟩
      (fun _ => .ok []) (fun _ => []) = ⟨[], 0, true, .completed⟩ :=
  C10_empty_range ⟨2026, 3, 10⟩ ⟨2026, 3, 9⟩ (fun _ => .ok []) (fun _ => [])
    (by decide)

/-- Witness for C6 at the concrete raw value `冲狗煞南`. -/
theorem C6_amended_chong_witness :
    extractChong (some ("冲狗煞南".toList)) =
      ⟨some ("冲狗煞南".toList), amendedChongAnimal ("冲狗煞南".toList),
        amendedChongBranch ("冲狗煞南".toList)⟩ :=
  (C6_amended_chong ("冲狗煞南".toList) (by decide)).1

end Almanac
